import Mathlib

/-!
Verification of `benchmarkVersionUtils` and `useBenchmarkCancellation`.

A shallow embedding of the version-history utilities of the repository
(`src/lib/benchmarkVersionUtils.ts`) and of the cancellation orchestration
(`src/hooks/useBenchmarkCancellation.ts`), with theorems checking the
specification's claims against them.

Modelling conventions:
* JavaScript numbers that hold version numbers are modelled as `Int`
  (the spec declares them integers); the only falsy `Int` is `0`, mirroring
  JavaScript truthiness on integral numbers (`NaN` has no integral model).
* A run's `createdAt` timestamp string is modelled by the integer time value
  that `new Date(s).getTime()` yields for it, since the code only ever uses
  the timestamp through that conversion.
* `undefined` / `null` fields and arguments are modelled with `Option`.
* `Array.prototype.sort` is stable and in JavaScript is invoked on a fresh
  copy (`slice()` / spread); it is modelled by `List.mergeSort` (stable) on
  the embedded list, with comparator `(a, b) => b.version - a.version`
  becoming the boolean relation `b.version ≤ a.version` (the comparator is
  nonpositive exactly when the left element may stay in front).
-/

namespace BenchmarkVersionUtils

/-- One immutable version snapshot of a benchmark
(`BenchmarkVersion` in `src/types`). -/
structure BenchmarkVersion where
  version : Int
  createdAt : String
  testCaseIds : List String
deriving DecidableEq, Repr

/-- One run of a benchmark (`BenchmarkRun` in `src/types`). `benchmarkVersion`
is optional: legacy records predate version tracking. `createdAt` is the time
value of the run's timestamp. -/
structure BenchmarkRun where
  id : String
  createdAt : Int
  benchmarkVersion : Option Int
deriving DecidableEq, Repr

/-- A benchmark, restricted to the fields the utilities read
(`versions` and `runs`, both of which may be absent on the TS type). -/
structure Benchmark where
  versions : Option (List BenchmarkVersion)
  runs : Option (List BenchmarkRun)
deriving DecidableEq, Repr

/-- A test case, restricted to the field the utilities read. -/
structure TestCase where
  id : String
deriving DecidableEq, Repr

/-- Enhanced version data with diff information (interface `VersionData`). -/
structure VersionData where
  version : Int
  createdAt : String
  testCaseIds : List String
  isLatest : Bool
  added : List String
  removed : List String
  runCount : Nat
deriving DecidableEq, Repr

/-- The sort comparator `(a, b) => b.version - a.version` of
`computeVersionData`, rendered as the boolean relation "`a` may stay in front
of `b`" (the comparator result is nonpositive). -/
def versionDesc (a b : BenchmarkVersion) : Bool := decide (b.version ≤ a.version)

/-- The sort comparator
`(a, b) => new Date(b.createdAt).getTime() - new Date(a.createdAt).getTime()`
of `filterRunsByVersion`, rendered as the boolean relation "`a` may stay in
front of `b`". -/
def createdAtDesc (a b : BenchmarkRun) : Bool := decide (b.createdAt ≤ a.createdAt)

/-- The body of the `.map((v, index, arr) => ...)` callback in
`computeVersionData`: build one `VersionData` from the version at `index` of
the descending-sorted array `arr`, diffing against `arr[index + 1]` and
counting the benchmark's runs whose `(r.benchmarkVersion || 1)` equals this
version's number. -/
def computeOne (b : Benchmark) (arr : List BenchmarkVersion) (index : Nat)
    (v : BenchmarkVersion) : VersionData :=
  let prevVersion := arr[index + 1]?
  let added :=
    match prevVersion with
    | some prev => v.testCaseIds.filter (fun id => !(prev.testCaseIds.contains id))
    | none => []
  let removed :=
    match prevVersion with
    | some prev => prev.testCaseIds.filter (fun id => !(v.testCaseIds.contains id))
    | none => []
  let runCount :=
    match b.runs with
    | some runs =>
        (runs.filter (fun r =>
          decide ((match r.benchmarkVersion with
                   | none => (1 : Int)
                   | some m => if m = 0 then 1 else m) = v.version))).length
    | none => 0
  { version := v.version
    createdAt := v.createdAt
    testCaseIds := v.testCaseIds
    isLatest := index == 0
    added := added
    removed := removed
    runCount := runCount }

/-- Embedding of `computeVersionData(benchmark)`: versions sorted by version number
descending, each annotated with `isLatest`, `added`/`removed` diffs against
the chronologically previous (next in sorted order) version, and `runCount`. -/
def computeVersionData (benchmark : Option Benchmark) : List VersionData :=
  match benchmark with
  | none => []
  | some b =>
    match b.versions with
    | none => []
    | some versions =>
      if versions.length = 0 then []
      else
        let sorted := versions.mergeSort versionDesc
        sorted.enum.map (fun p => computeOne b sorted p.1 p.2)

/-- Embedding of `getSelectedVersionData(versionData, selectedVersion)`: the first element
whose `version` equals the selection, the first element when the selection is
absent or unmatched, `null` when the array is empty. -/
def getSelectedVersionData (versionData : List VersionData)
    (selectedVersion : Option Int) : Option VersionData :=
  if versionData.length = 0 then none
  else
    match selectedVersion with
    | none => versionData[0]?
    | some sel =>
      match versionData.find? (fun v => decide (v.version = sel)) with
      | some v => some v
      | none => versionData[0]?

/-- Embedding of `getVersionTestCases(testCases, selectedVersionData)`: the test cases
whose id the version's `testCaseIds` contains, in the order of `testCases`. -/
def getVersionTestCases (testCases : List TestCase)
    (selectedVersionData : Option VersionData) : List TestCase :=
  match selectedVersionData with
  | none => []
  | some svd => testCases.filter (fun tc => svd.testCaseIds.contains tc.id)

/-- The `number | 'all'` filter argument of `filterRunsByVersion`. -/
inductive VersionFilter where
  | all
  | specific (n : Int)
deriving DecidableEq, Repr

/-- Embedding of `filterRunsByVersion(runs, versionFilter)`: runs sorted by `createdAt`
descending, restricted to those with `(run.benchmarkVersion || 1)` equal to
the filter when it is a number. -/
def filterRunsByVersion (runs : Option (List BenchmarkRun))
    (versionFilter : VersionFilter) : List BenchmarkRun :=
  match runs with
  | none => []
  | some rs =>
    let sorted := rs.mergeSort createdAtDesc
    match versionFilter with
    | .all => sorted
    | .specific n =>
      sorted.filter (fun run =>
        decide ((match run.benchmarkVersion with
                 | none => (1 : Int)
                 | some m => if m = 0 then 1 else m) = n))

end BenchmarkVersionUtils

namespace BenchmarkVersionUtils

/-- The effective version of a run as the code computes it:
`run.benchmarkVersion || 1` coerces every falsy value (absent field, or the
falsy number `0`) to the legacy default `1`. -/
def runEffectiveVersion (r : BenchmarkRun) : Int :=
  match r.benchmarkVersion with
  | none => 1
  | some m => if m = 0 then 1 else m

/-- Modelled from the spec's words (sections 4.3 and the claims): the
effective version of a run is "`run.benchmarkVersion` if present, else `1`" —
with no coercion of present falsy values. Used to compare the spec's diff
rule with the code's `|| 1` coercion. -/
def claimEffectiveVersion (r : BenchmarkRun) : Int :=
  match r.benchmarkVersion with
  | none => 1
  | some m => m

end BenchmarkVersionUtils

namespace BenchmarkVersionUtils

/-! Concrete data for witnesses: the spec's section-8 worked example. -/

private def exV1 : BenchmarkVersion := ⟨1, "T1", ["a"]⟩
private def exV2 : BenchmarkVersion := ⟨2, "T2", ["a", "b"]⟩
private def exV3 : BenchmarkVersion := ⟨3, "T3", ["a", "b", "c"]⟩
private def exBench : Benchmark := ⟨some [exV1, exV3, exV2], some []⟩

private def exVD3 : VersionData := ⟨3, "T3", ["a", "b", "c"], true, ["c"], [], 0⟩
private def exVD2 : VersionData := ⟨2, "T2", ["a", "b"], false, ["b"], [], 0⟩
private def exVD1 : VersionData := ⟨1, "T1", ["a"], false, [], [], 0⟩

private theorem exBench_eval :
    computeVersionData (some exBench) = [exVD3, exVD2, exVD1] := by
  simp [computeVersionData, computeOne, versionDesc, exBench, exV1, exV2, exV3,
    exVD1, exVD2, exVD3, List.mergeSort, List.merge]
  all_goals decide

/-! Structure of `computeVersionData`'s output -/

private theorem computeVersionData_some (b : Benchmark)
    (versions : List BenchmarkVersion) (hv : b.versions = some versions) :
    computeVersionData (some b) =
      (versions.mergeSort versionDesc).enum.map
        (fun p => computeOne b (versions.mergeSort versionDesc) p.1 p.2) := by
  by_cases h : versions.length = 0
  · have he : versions = [] := List.length_eq_zero.mp h
    subst he
    simp [computeVersionData, hv, List.mergeSort]
  · simp [computeVersionData, hv, h]

private theorem computeVersionData_some_getElem? (b : Benchmark)
    (versions : List BenchmarkVersion) (hv : b.versions = some versions)
    (i : Nat) :
    (computeVersionData (some b))[i]? =
      ((versions.mergeSort versionDesc)[i]?).map
        (fun v => computeOne b (versions.mergeSort versionDesc) i v) := by
  rw [computeVersionData_some b versions hv]
  simp only [List.enum_eq_enumFrom, List.getElem?_map, List.getElem?_enumFrom,
    Nat.zero_add, Option.map_map]
  cases (versions.mergeSort versionDesc)[i]? <;> rfl

/-- Claim C1. For every benchmark and adjacent pair (new, old) of versions in
`computeVersionData`'s descending-sorted output, `new.added` is the sublist of
`new.testCaseIds` of ids not contained in `old.testCaseIds` (in new's order)
and `new.removed` is the sublist of `old.testCaseIds` of ids not contained in
`new.testCaseIds` (in old's order); the oldest version — the one with no
successor in the output — has empty `added` and `removed`. -/
theorem computeVersionData_diff_correct (benchmark : Option Benchmark) :
    (∀ i newV oldV,
        (computeVersionData benchmark)[i]? = some newV →
        (computeVersionData benchmark)[i + 1]? = some oldV →
        newV.added = newV.testCaseIds.filter
          (fun id => !(oldV.testCaseIds.contains id)) ∧
        newV.removed = oldV.testCaseIds.filter
          (fun id => !(newV.testCaseIds.contains id))) ∧
    (∀ i lastV,
        (computeVersionData benchmark)[i]? = some lastV →
        (computeVersionData benchmark)[i + 1]? = none →
        lastV.added = [] ∧ lastV.removed = []) := by
  cases benchmark with
  | none => simp [computeVersionData]
  | some b =>
    cases hv : b.versions with
    | none => simp [computeVersionData, hv]
    | some versions =>
      constructor
      · intro i newV oldV h1 h2
        rw [computeVersionData_some_getElem? b versions hv] at h1 h2
        cases hsi : (versions.mergeSort versionDesc)[i]? with
        | none => rw [hsi] at h1; simp at h1
        | some v =>
          cases hsj : (versions.mergeSort versionDesc)[i + 1]? with
          | none => rw [hsj] at h2; simp at h2
          | some w =>
            rw [hsi] at h1
            rw [hsj] at h2
            simp only [Option.map_some'] at h1 h2
            cases h1
            cases h2
            simp [computeOne, hsj]
      · intro i lastV h1 h2
        rw [computeVersionData_some_getElem? b versions hv] at h1 h2
        cases hsi : (versions.mergeSort versionDesc)[i]? with
        | none => rw [hsi] at h1; simp at h1
        | some v =>
          cases hsj : (versions.mergeSort versionDesc)[i + 1]? with
          | some w => rw [hsj] at h2; simp at h2
          | none =>
            rw [hsi] at h1
            simp only [Option.map_some'] at h1
            cases h1
            simp [computeOne, hsj]

/-- Witness for C1 at the spec's worked example: version 3's diff against
version 2, and the oldest version's empty diff. -/
theorem computeVersionData_diff_correct_witness :
    (exVD3.added = exVD3.testCaseIds.filter
        (fun id => !(exVD2.testCaseIds.contains id)) ∧
     exVD3.removed = exVD2.testCaseIds.filter
        (fun id => !(exVD3.testCaseIds.contains id))) ∧
    (exVD1.added = [] ∧ exVD1.removed = []) :=
  ⟨(computeVersionData_diff_correct (some exBench)).1 0 exVD3 exVD2
      (by rw [exBench_eval]; rfl) (by rw [exBench_eval]; rfl),
   (computeVersionData_diff_correct (some exBench)).2 2 exVD1
      (by rw [exBench_eval]; rfl) (by rw [exBench_eval]; rfl)⟩

end BenchmarkVersionUtils

namespace BenchmarkVersionUtils

/-! C2: sort order and uniqueness of `isLatest` -/

private theorem versionDesc_trans : ∀ (a b c : BenchmarkVersion),
    versionDesc a b → versionDesc b c → versionDesc a c := by
  intro a b c hab hbc
  simp only [versionDesc, decide_eq_true_eq] at *
  exact le_trans hbc hab

private theorem versionDesc_total : ∀ (a b : BenchmarkVersion),
    versionDesc a b || versionDesc b a := by
  intro a b
  simp only [versionDesc]
  rcases le_total a.version b.version with h | h <;> simp [h]

private theorem computeVersionData_map_version (b : Benchmark)
    (versions : List BenchmarkVersion) (hv : b.versions = some versions) :
    (computeVersionData (some b)).map (fun vd => vd.version) =
      (versions.mergeSort versionDesc).map (fun v => v.version) := by
  rw [computeVersionData_some b versions hv, List.map_map]
  have h1 : ((fun vd : VersionData => vd.version) ∘
      fun p => computeOne b (versions.mergeSort versionDesc) p.1 p.2) =
      ((fun v : BenchmarkVersion => v.version) ∘ Prod.snd) := rfl
  rw [h1, ← List.map_map, List.enum_eq_enumFrom, List.enumFrom_map_snd]

private theorem mergeSort_versionDesc_strict (versions : List BenchmarkVersion)
    (hdist : versions.Pairwise (fun u w => u.version ≠ w.version)) :
    (versions.mergeSort versionDesc).Pairwise
      (fun u w => w.version < u.version) := by
  have hsorted : (versions.mergeSort versionDesc).Pairwise
      (fun u w => versionDesc u w) :=
    List.sorted_mergeSort versionDesc_trans versionDesc_total versions
  have hperm := List.mergeSort_perm versions versionDesc
  have hdist2 : (versions.mergeSort versionDesc).Pairwise
      (fun u w => u.version ≠ w.version) :=
    (hperm.pairwise_iff (fun h => h.symm)).mpr hdist
  refine (hsorted.and hdist2).imp ?_
  rintro u w ⟨hle, hne⟩
  simp only [versionDesc, decide_eq_true_eq] at hle
  exact lt_of_le_of_ne hle (fun h => hne h.symm)

/-- Claim C2. When a benchmark's versions carry pairwise-distinct version
numbers, each at least `1`, `computeVersionData` is sorted strictly descending
by version number and, when non-empty, exactly one element has
`isLatest = true`, and that element has the maximum version number. -/
theorem computeVersionData_sorted_unique_latest (b : Benchmark)
    (versions : List BenchmarkVersion) (hv : b.versions = some versions)
    (hdist : versions.Pairwise (fun u w => u.version ≠ w.version))
    (hpos : ∀ v ∈ versions, 1 ≤ v.version) :
    (computeVersionData (some b)).Pairwise (fun x y => y.version < x.version) ∧
    (computeVersionData (some b) ≠ [] →
      ((computeVersionData (some b)).filter (fun vd => vd.isLatest)).length = 1 ∧
      ∀ vd ∈ computeVersionData (some b), vd.isLatest = true →
        ∀ w ∈ computeVersionData (some b), w.version ≤ vd.version) := by
  have hstrict := mergeSort_versionDesc_strict versions hdist
  have hmapv := computeVersionData_map_version b versions hv
  constructor
  · have h5 : ((computeVersionData (some b)).map (fun vd => vd.version)).Pairwise
        (fun x y : Int => y < x) := by
      rw [hmapv]
      exact List.pairwise_map.mpr hstrict
    exact List.pairwise_map.mp h5
  · intro hne
    cases hs : versions.mergeSort versionDesc with
    | nil =>
      rw [computeVersionData_some b versions hv, hs] at hne
      simp at hne
    | cons x xs =>
      rw [hs] at hstrict hmapv
      have hout : computeVersionData (some b) =
          (x :: xs).enum.map (fun p => computeOne b (x :: xs) p.1 p.2) := by
        rw [computeVersionData_some b versions hv, hs]
      have hfilter : (computeVersionData (some b)).filter (fun vd => vd.isLatest) =
          [computeOne b (x :: xs) 0 x] := by
        rw [hout, List.filter_map]
        have hcomp : ((fun vd : VersionData => vd.isLatest) ∘
            (fun p => computeOne b (x :: xs) p.1 p.2)) =
            (fun p : Nat × BenchmarkVersion => p.1 == 0) := rfl
        rw [hcomp, List.enum_cons]
        have htail : (xs.enumFrom 1).filter
            (fun p : Nat × BenchmarkVersion => p.1 == 0) = [] := by
          rw [List.filter_eq_nil_iff]
          rintro ⟨i, a⟩ hmem
          have h1 : 1 ≤ i :=
            (List.mk_mem_enumFrom_iff_le_and_getElem?_sub.mp hmem).1
          simp only [beq_iff_eq]
          omega
        rw [List.filter_cons]
        simp [htail]
      refine ⟨by rw [hfilter]; rfl, ?_⟩
      intro vd hvd hlat w hw
      have hvdmem : vd ∈
          (computeVersionData (some b)).filter (fun vd => vd.isLatest) := by
        rw [List.mem_filter]
        exact ⟨hvd, by rw [hlat]⟩
      rw [hfilter] at hvdmem
      have hvdeq : vd = computeOne b (x :: xs) 0 x := by simpa using hvdmem
      have hvdver : vd.version = x.version := by rw [hvdeq]; rfl
      have hwver : w.version ∈ (x :: xs).map (fun v => v.version) := by
        rw [← hmapv]
        exact List.mem_map_of_mem _ hw
      rw [hvdver]
      rcases List.mem_map.mp hwver with ⟨v, hvmem, hveq⟩
      rcases List.mem_cons.mp hvmem with h | h
      · rw [← hveq, h]
      · have hlt := List.rel_of_pairwise_cons hstrict h
        rw [← hveq]
        exact le_of_lt hlt

/-- Witness for C2 at the spec's worked example (three distinct versions,
all at least 1, in scrambled input order). -/
theorem computeVersionData_sorted_unique_latest_witness :
    (computeVersionData (some exBench)).Pairwise
      (fun x y => y.version < x.version) ∧
    (((computeVersionData (some exBench)).filter
        (fun vd => vd.isLatest)).length = 1 ∧
      ∀ vd ∈ computeVersionData (some exBench), vd.isLatest = true →
        ∀ w ∈ computeVersionData (some exBench), w.version ≤ vd.version) :=
  ⟨(computeVersionData_sorted_unique_latest exBench [exV1, exV3, exV2] rfl
      (by decide) (by decide)).1,
   (computeVersionData_sorted_unique_latest exBench [exV1, exV3, exV2] rfl
      (by decide) (by decide)).2 (by rw [exBench_eval]; simp)⟩

end BenchmarkVersionUtils

namespace BenchmarkVersionUtils

/-! C3: selection resolution -/

/-- Claim C3. `getSelectedVersionData` on an empty array is `null` for every
selection; with an absent selection it is the first element; with a selection
it is the first element whose `version` matches when one exists, and
otherwise falls back to the first element. -/
theorem getSelectedVersionData_spec (d : List VersionData) (v : Int) :
    (∀ s, getSelectedVersionData [] s = none) ∧
    (d ≠ [] → getSelectedVersionData d none = d[0]?) ∧
    ((∃ x ∈ d, x.version = v) →
      ∃ i x, d[i]? = some x ∧ x.version = v ∧
        (∀ (j : Nat) (y : VersionData), j < i → d[j]? = some y → y.version ≠ v) ∧
        getSelectedVersionData d (some v) = some x) ∧
    ((∀ x ∈ d, x.version ≠ v) → getSelectedVersionData d (some v) = d[0]?) := by
  refine ⟨fun s => by simp [getSelectedVersionData], ?_, ?_, ?_⟩
  · intro h
    simp [getSelectedVersionData, List.length_eq_zero, h]
  · rintro ⟨x0, hx0, hv0⟩
    have hne : d ≠ [] := by rintro rfl; simp at hx0
    have hsome : (d.find? (fun y => decide (y.version = v))).isSome :=
      List.find?_isSome.mpr ⟨x0, hx0, by simp [hv0]⟩
    obtain ⟨x, hfind⟩ := Option.isSome_iff_exists.mp hsome
    obtain ⟨hpx, as, bs, heq, hall⟩ := List.find?_eq_some.mp hfind
    refine ⟨as.length, x, ?_, ?_, ?_, ?_⟩
    · rw [heq, List.getElem?_append_right (Nat.le_refl _)]
      simp
    · exact of_decide_eq_true hpx
    · intro j y hj hy
      rw [heq, List.getElem?_append_left (by simpa using hj)] at hy
      have hmem : y ∈ as := List.getElem?_mem hy
      have := hall y hmem
      simpa using this
    · simp [getSelectedVersionData, List.length_eq_zero, hne, hfind]
  · intro hno
    by_cases hd : d = []
    · subst hd
      simp [getSelectedVersionData]
    · have hfn : d.find? (fun y => decide (y.version = v)) = none :=
        List.find?_eq_none.mpr (fun x hx => by simp [hno x hx])
      simp [getSelectedVersionData, List.length_eq_zero, hd, hfn]

/-- Witness for C3 at a concrete two-element list: selecting version `1`
finds the second element; the no-match side is exercised via the first-match
existence at `v = 1`. -/
theorem getSelectedVersionData_spec_witness :
    getSelectedVersionData [exVD2, exVD1] none = [exVD2, exVD1][0]? ∧
    ∃ i x, [exVD2, exVD1][i]? = some x ∧ x.version = 1 ∧
      (∀ (j : Nat) (y : VersionData), j < i → [exVD2, exVD1][j]? = some y → y.version ≠ 1) ∧
      getSelectedVersionData [exVD2, exVD1] (some 1) = some x :=
  ⟨(getSelectedVersionData_spec [exVD2, exVD1] 1).2.1 (by decide),
   (getSelectedVersionData_spec [exVD2, exVD1] 1).2.2.1
     ⟨exVD1, by decide, by decide⟩⟩

end BenchmarkVersionUtils

namespace BenchmarkVersionUtils

/-! C6: test-case projection -/

/-- Claim C6. `getVersionTestCases` with an absent version is empty; with a
version it is exactly the subsequence of `testCases` whose ids the version's
`testCaseIds` contains, in the original order of `testCases` (ids matching no
test case are silently ignored; duplicates are kept with their original
multiplicity). -/
theorem getVersionTestCases_spec (cases : List TestCase) (vd : VersionData) :
    getVersionTestCases cases none = [] ∧
    (getVersionTestCases cases (some vd)).Sublist cases ∧
    (∀ tc : TestCase, tc ∈ getVersionTestCases cases (some vd) ↔
        tc ∈ cases ∧ tc.id ∈ vd.testCaseIds) ∧
    (∀ tc : TestCase, (getVersionTestCases cases (some vd)).count tc =
        if tc.id ∈ vd.testCaseIds then cases.count tc else 0) := by
  refine ⟨rfl, List.filter_sublist cases, ?_, ?_⟩
  · intro tc
    simp [getVersionTestCases, List.mem_filter]
  · intro tc
    by_cases htc : tc.id ∈ vd.testCaseIds
    · rw [if_pos htc]
      exact List.count_filter (by simpa using htc)
    · rw [if_neg htc]
      rw [List.count_eq_zero]
      intro hmem
      rw [getVersionTestCases, List.mem_filter] at hmem
      exact htc (by simpa using hmem.2)

/-! C4, C5, C10: the effective-version rule -/

private theorem createdAtDesc_trans : ∀ (a b c : BenchmarkRun),
    createdAtDesc a b → createdAtDesc b c → createdAtDesc a c := by
  intro a b c hab hbc
  simp only [createdAtDesc, decide_eq_true_eq] at *
  exact le_trans hbc hab

private theorem createdAtDesc_total : ∀ (a b : BenchmarkRun),
    createdAtDesc a b || createdAtDesc b a := by
  intro a b
  simp only [createdAtDesc]
  rcases le_total a.createdAt b.createdAt with h | h <;> simp [h]

/-- The run predicate written inline in `filterRunsByVersion` (and in
`computeVersionData`'s run counting) is the `|| 1` coercion. -/
private theorem inline_pred_eq (n : Int) :
    (fun run : BenchmarkRun =>
        decide ((match run.benchmarkVersion with
                 | none => (1 : Int)
                 | some m => if m = 0 then 1 else m) = n)) =
      (fun run : BenchmarkRun => decide (runEffectiveVersion run = n)) := rfl

/-- Claim C4, amended. `filterRunsByVersion` of an absent run collection is
empty; with filter `all` it returns a permutation of all runs sorted
descending by `createdAt`; with a numeric filter `n` it returns exactly the
runs whose effective version equals `n` — where the effective version is
`benchmarkVersion` when present and nonzero (truthy) and the legacy default
`1` otherwise — sorted descending by `createdAt`. -/
theorem filterRunsByVersion_spec (runs : List BenchmarkRun) (n : Int) :
    (∀ f, filterRunsByVersion none f = []) ∧
    ((filterRunsByVersion (some runs) VersionFilter.all).Perm runs ∧
      (filterRunsByVersion (some runs) VersionFilter.all).Pairwise
        (fun a b => b.createdAt ≤ a.createdAt)) ∧
    ((filterRunsByVersion (some runs) (.specific n)).Perm
        (runs.filter (fun r => decide (runEffectiveVersion r = n))) ∧
      (filterRunsByVersion (some runs) (.specific n)).Pairwise
        (fun a b => b.createdAt ≤ a.createdAt)) := by
  have hsorted : (runs.mergeSort createdAtDesc).Pairwise
      (fun a b => createdAtDesc a b) :=
    List.sorted_mergeSort createdAtDesc_trans createdAtDesc_total runs
  have hsorted2 : (runs.mergeSort createdAtDesc).Pairwise
      (fun a b => b.createdAt ≤ a.createdAt) := by
    refine hsorted.imp ?_
    intro a b h
    simpa [createdAtDesc] using h
  refine ⟨fun f => rfl, ⟨List.mergeSort_perm runs createdAtDesc, hsorted2⟩,
    ?_, ?_⟩
  · show List.Perm ((runs.mergeSort createdAtDesc).filter _) _
    rw [inline_pred_eq n]
    exact (List.mergeSort_perm runs createdAtDesc).filter _
  · show ((runs.mergeSort createdAtDesc).filter _).Pairwise _
    exact hsorted2.filter _

/-- A run whose `benchmarkVersion` is present but `0` (a falsy number). -/
private def zeroRun : BenchmarkRun := ⟨"r-zero", 0, some 0⟩

/-- Counterexample to C4 as stated: `zeroRun` has spec-effective version
`0` ("`benchmarkVersion` if present"), so the claim requires
`filterRunsByVersion([zeroRun], 0)` to return it; the code's `|| 1` coercion
filters it out and returns `[]`. -/
theorem filterRunsByVersion_claim_cex :
    [zeroRun].filter (fun r => decide (claimEffectiveVersion r = 0)) =
      [zeroRun] ∧
    filterRunsByVersion (some [zeroRun]) (.specific 0) = [] := by
  constructor
  · decide
  · simp [filterRunsByVersion, zeroRun, List.mergeSort]

/-- A benchmark with a single version `1` and a single run whose
`benchmarkVersion` is the falsy number `0`. -/
private def cb5 : Benchmark := ⟨some [⟨1, "T1", ["a"]⟩], some [zeroRun]⟩

/-- The single output element of `computeVersionData` on `cb5`. -/
private def exCb5VD : VersionData := ⟨1, "T1", ["a"], true, [], [], 1⟩

private theorem cb5_eval : computeVersionData (some cb5) = [exCb5VD] := by
  simp [computeVersionData, computeOne, versionDesc, cb5, zeroRun, exCb5VD,
    List.mergeSort]

private theorem computeVersionData_runCount_aux (b : Benchmark) :
    ∀ vd ∈ computeVersionData (some b),
      vd.runCount = ((b.runs.getD []).filter
        (fun r => decide (runEffectiveVersion r = vd.version))).length := by
  intro vd hvd
  cases hv : b.versions with
  | none => rw [computeVersionData, hv] at hvd; simp at hvd
  | some versions =>
    rw [computeVersionData_some b versions hv] at hvd
    obtain ⟨p, hp, hpeq⟩ := List.mem_map.mp hvd
    subst hpeq
    cases hr : b.runs with
    | none => simp [computeOne, hr]
    | some rs =>
      show (computeOne b _ p.1 p.2).runCount = _
      simp only [computeOne, hr, Option.getD_some]
      rw [inline_pred_eq]

/-- Claim C5, amended. Every element of `computeVersionData`'s output has
`runCount` equal to the number of the benchmark's runs whose effective
version equals its version number, where the effective version is
`benchmarkVersion` when present and nonzero (truthy) and the legacy default
`1` otherwise; an absent run collection yields `runCount = 0`. -/
theorem computeVersionData_runCount (b : Benchmark) :
    (∀ vd ∈ computeVersionData (some b),
      vd.runCount = ((b.runs.getD []).filter
        (fun r => decide (runEffectiveVersion r = vd.version))).length) ∧
    (b.runs = none → ∀ vd ∈ computeVersionData (some b), vd.runCount = 0) := by
  refine ⟨computeVersionData_runCount_aux b, ?_⟩
  intro hr vd hvd
  rw [computeVersionData_runCount_aux b vd hvd, hr]
  rfl

/-- Witness for C5, amended, at `cb5`: the version-1 entry counts the
`benchmarkVersion = 0` run, because that run's effective version is `1`. -/
theorem computeVersionData_runCount_witness :
    exCb5VD.runCount = ((cb5.runs.getD []).filter
        (fun r => decide (runEffectiveVersion r = exCb5VD.version))).length :=
  (computeVersionData_runCount cb5).1 exCb5VD (by rw [cb5_eval]; simp)

/-- Counterexample to C5 as stated: in `cb5` the version-1 entry has
`runCount = 1` (the code coerces the falsy `benchmarkVersion = 0` to `1`),
but under the claim's rule ("`benchmarkVersion` when present") the run's
effective version is `0`, so the claimed count for version `1` is `0`. -/
theorem computeVersionData_runCount_claim_cex :
    (computeVersionData (some cb5)).map (fun vd => (vd.version, vd.runCount)) =
      [((1 : Int), 1)] ∧
    ((cb5.runs.getD []).filter
        (fun r => decide (claimEffectiveVersion r = 1))).length = 0 := by
  constructor
  · rw [cb5_eval]; rfl
  · decide

end BenchmarkVersionUtils

namespace BenchmarkVersionUtils

/-- Claim C10. The legacy default applies to every falsy `benchmarkVersion`
value, not only an absent field: a run whose `benchmarkVersion` is present
but `0` gets effective version `1` from the `|| 1` coercion, is counted into
version 1's `runCount` by `computeVersionData`, and is returned by
`filterRunsByVersion` exactly for the numeric filter `1` — the same coercion
in both places. -/
theorem falsy_benchmarkVersion_defaults (r : BenchmarkRun)
    (h : r.benchmarkVersion = some 0) :
    runEffectiveVersion r = 1 ∧
    (∀ b : Benchmark, b.runs = some [r] →
      ∀ vd ∈ computeVersionData (some b),
        vd.runCount = if vd.version = 1 then 1 else 0) ∧
    filterRunsByVersion (some [r]) (.specific 1) = [r] ∧
    (∀ n : Int, n ≠ 1 → filterRunsByVersion (some [r]) (.specific n) = []) := by
  have heff : runEffectiveVersion r = 1 := by
    simp [runEffectiveVersion, h]
  have hsingle : [r].mergeSort createdAtDesc = [r] :=
    List.mergeSort_of_sorted (List.pairwise_singleton _ r)
  refine ⟨heff, ?_, ?_, ?_⟩
  · intro b hr vd hvd
    rw [computeVersionData_runCount_aux b vd hvd, hr]
    simp only [Option.getD_some, List.filter_cons, List.filter_nil, heff]
    by_cases hv1 : vd.version = 1
    · simp [hv1]
    · simp only [hv1, if_false]
      simp [heff]
      omega
  · show ([r].mergeSort createdAtDesc).filter _ = [r]
    rw [hsingle, inline_pred_eq]
    simp [heff]
  · intro n hn
    show ([r].mergeSort createdAtDesc).filter _ = []
    rw [hsingle, inline_pred_eq]
    simp [heff]
    omega

/-- Witness for C10 at `zeroRun` (whose `benchmarkVersion` is `some 0`)
and the benchmark `cb5` holding it. -/
theorem falsy_benchmarkVersion_defaults_witness :
    runEffectiveVersion zeroRun = 1 ∧
    exCb5VD.runCount = (if exCb5VD.version = 1 then 1 else 0) ∧
    filterRunsByVersion (some [zeroRun]) (.specific 1) = [zeroRun] ∧
    filterRunsByVersion (some [zeroRun]) (.specific 2) = [] :=
  ⟨(falsy_benchmarkVersion_defaults zeroRun rfl).1,
   (falsy_benchmarkVersion_defaults zeroRun rfl).2.1 cb5 rfl exCb5VD
     (by rw [cb5_eval]; simp),
   (falsy_benchmarkVersion_defaults zeroRun rfl).2.2.1,
   (falsy_benchmarkVersion_defaults zeroRun rfl).2.2.2 2 (by decide)⟩

end BenchmarkVersionUtils

namespace BenchmarkVersionUtils

/-! C7: the input collections are not mutated

JavaScript mutation is made expressible by threading the caller's arrays
through the calls as an explicit store: a function that mutated an input
array would have to return an updated store. The source's ordering
operations run on fresh copies — `benchmark.versions.slice().sort(...)` and
`[...runs].sort(...)` — so the store-threaded embeddings below return the
store unchanged while computing the same results as the pure embeddings. -/

/-- The caller-held arrays passed to `computeVersionData` and
`filterRunsByVersion`, as a store of mutable contents. -/
structure CallerStore where
  versionsArr : List BenchmarkVersion
  runsArr : List BenchmarkRun
deriving DecidableEq, Repr

/-- Embedding of `benchmark.versions.slice()`: read the stored array into a fresh local
copy; a read does not change the store. -/
def sliceVersions (s : CallerStore) : List BenchmarkVersion × CallerStore :=
  (s.versionsArr, s)

/-- Embedding of the spread `[...runs]`: read the stored run array into a fresh local copy. -/
def spreadRuns (s : CallerStore) : List BenchmarkRun × CallerStore :=
  (s.runsArr, s)

/-- Embedding of `.sort(cmp)` applied to a local (freshly allocated) array: in-place
sorting of a local replaces only the local contents, touching no store. -/
def sortLocal {τ : Type} (le : τ → τ → Bool) (l : List τ) : List τ :=
  l.mergeSort le

/-- Embedding of `computeVersionData` with the caller's arrays in an explicit store:
`slice` reads `versions`, the sort runs on the fresh copy, `runs` is only
read (inside `computeOne`), and the store comes back unchanged. -/
def computeVersionDataST (s : CallerStore) :
    List VersionData × CallerStore :=
  let (copy, s1) := sliceVersions s
  let sorted := sortLocal versionDesc copy
  let b : Benchmark := ⟨some s1.versionsArr, some s1.runsArr⟩
  (sorted.enum.map (fun p => computeOne b sorted p.1 p.2), s1)

/-- Embedding of `filterRunsByVersion` with the caller's run array in an explicit store:
the spread reads `runs`, the sort runs on the fresh copy, and the store
comes back unchanged. -/
def filterRunsByVersionST (s : CallerStore) (versionFilter : VersionFilter) :
    List BenchmarkRun × CallerStore :=
  let (copy, s1) := spreadRuns s
  let sorted := sortLocal createdAtDesc copy
  match versionFilter with
  | .all => (sorted, s1)
  | .specific n =>
    (sorted.filter (fun run =>
        decide ((match run.benchmarkVersion with
                 | none => (1 : Int)
                 | some m => if m = 0 then 1 else m) = n)), s1)

/-- Claim C7. Neither `computeVersionData` nor `filterRunsByVersion` mutates
its input collections: threaded through the explicit caller store, both
calls return the store exactly as given — the version collection keeps its
contents and order and caller-held references stay valid — while producing
the same results as the pure embeddings. -/
theorem no_input_mutation (s : CallerStore) (f : VersionFilter) :
    (computeVersionDataST s).2 = s ∧
    (computeVersionDataST s).1 =
      computeVersionData (some ⟨some s.versionsArr, some s.runsArr⟩) ∧
    (filterRunsByVersionST s f).2 = s ∧
    (filterRunsByVersionST s f).1 = filterRunsByVersion (some s.runsArr) f := by
  refine ⟨rfl, ?_, ?_, ?_⟩
  · rw [computeVersionData_some ⟨some s.versionsArr, some s.runsArr⟩
      s.versionsArr rfl]
    rfl
  · cases f <;> rfl
  · cases f <;> rfl

/-! C8: totality and soft failure -/

/-- Claim C8. The four exported functions are total Lean functions (they are
executable definitions, defined on every input), and every edge case the
spec names degrades to an empty or fallback result: absent benchmark, absent
or empty version collections, absent runs, empty version data, a selection
matching no version, dangling test-case ids, absent run collections, and
runs missing `benchmarkVersion`. -/
theorem total_functions_spec :
    computeVersionData none = [] ∧
    (∀ b : Benchmark, b.versions = none → computeVersionData (some b) = []) ∧
    (∀ b : Benchmark, b.versions = some [] → computeVersionData (some b) = []) ∧
    (∀ b : Benchmark, b.runs = none →
      ∀ vd ∈ computeVersionData (some b), vd.runCount = 0) ∧
    (∀ s, getSelectedVersionData [] s = none) ∧
    (∀ (d : List VersionData) (s : Option Int), d ≠ [] →
      (getSelectedVersionData d s).isSome) ∧
    (∀ cs, getVersionTestCases cs none = []) ∧
    (∀ (cs : List TestCase) (vd : VersionData),
      (∀ tc ∈ cs, tc.id ∉ vd.testCaseIds) →
      getVersionTestCases cs (some vd) = []) ∧
    (∀ f, filterRunsByVersion none f = []) ∧
    (∀ r : BenchmarkRun, r.benchmarkVersion = none → runEffectiveVersion r = 1) := by
  refine ⟨rfl, ?_, ?_, ?_, fun s => by simp [getSelectedVersionData],
    ?_, fun cs => rfl, ?_, fun f => rfl, ?_⟩
  · intro b hb
    simp [computeVersionData, hb]
  · intro b hb
    simp [computeVersionData, hb]
  · intro b hb vd hvd
    rw [computeVersionData_runCount_aux b vd hvd, hb]
    rfl
  · intro d s hd
    rw [getSelectedVersionData.eq_def]
    rw [if_neg (by simpa [List.length_eq_zero] using hd)]
    have h0 : d[0]?.isSome := by
      cases d with
      | nil => exact absurd rfl hd
      | cons a as => simp
    cases s with
    | none => exact h0
    | some sel =>
      show (match d.find? (fun v : VersionData => decide (v.version = sel)) with
            | some v => some v
            | none => d[0]?).isSome = true
      cases hfind : d.find? (fun v => decide (v.version = sel)) with
      | none => exact h0
      | some x => simp
  · intro cs vd hall
    rw [getVersionTestCases, List.filter_eq_nil_iff]
    intro tc htc
    simpa using hall tc htc
  · intro r hr
    simp [runEffectiveVersion, hr]

/-- Witness for C8: the hypothesis-bearing conjuncts applied at concrete
inputs (a benchmark with absent fields, a non-empty selection list, a version
whose ids match no test case, a legacy run). -/
theorem total_functions_spec_witness :
    computeVersionData (some ⟨none, none⟩) = [] ∧
    (getSelectedVersionData [exVD1] (some 42)).isSome ∧
    getVersionTestCases [⟨"x"⟩] (some exVD1) = [] ∧
    runEffectiveVersion ⟨"legacy", 5, none⟩ = 1 :=
  ⟨total_functions_spec.2.1 ⟨none, none⟩ rfl,
   total_functions_spec.2.2.2.2.2.1 [exVD1] (some 42) (by decide),
   total_functions_spec.2.2.2.2.2.2.2.1 [⟨"x"⟩] exVD1 (by decide),
   total_functions_spec.2.2.2.2.2.2.2.2.2 ⟨"legacy", 5, none⟩ rfl⟩

end BenchmarkVersionUtils

namespace BenchmarkCancellation

/-!
Model of `useBenchmarkCancellation` (`src/hooks/useBenchmarkCancellation.ts`).

The hook's state is a single `cancellingRunId : string | null` React state
cell, modelled as `Option String`. `handleCancelRun` is an `async` function
whose effects are made explicit: the outcome of the opaque remote call
`cancelBenchmarkRun` and of the optional `onSuccess` callback are inputs
(`Except`-valued oracles, an exception carrying its message), and the run
records every assignment to `cancellingRunId` in order, whether `onSuccess`
was invoked, and what the function returns to its caller.
-/

/-- The observable behaviour of one `handleCancelRun(benchmarkId, runId,
onSuccess?)` call. -/
structure HandleCancelRunTrace where
  stateUpdates : List (Option String)
  onSuccessInvoked : Bool
  result : Except String Unit
deriving Repr

/-- The `try` block of `handleCancelRun`: `await cancelBenchmarkRun(...)`,
then `if (onSuccess) await onSuccess()`. Returns whether `onSuccess` was
invoked, paired with the block's outcome (the first exception escapes). -/
def tryBlock (cancelOutcome : Except String Unit)
    (onSuccess : Option (Except String Unit)) : Bool × Except String Unit :=
  match cancelOutcome with
  | .error e => (false, .error e)
  | .ok _ =>
    match onSuccess with
    | none => (false, .ok ())
    | some cbOutcome => (true, cbOutcome)

/-- Embedding of `handleCancelRun`: `setCancellingRunId(runId)`, the `try` block, a
`catch` that reports via `console.error` and swallows the exception, and a
`finally` that runs `setCancellingRunId(null)` on every exit path. -/
def handleCancelRun (runId : String) (cancelOutcome : Except String Unit)
    (onSuccess : Option (Except String Unit)) : HandleCancelRunTrace :=
  let invoked := (tryBlock cancelOutcome onSuccess).1
  let caught : Except String Unit :=
    match (tryBlock cancelOutcome onSuccess).2 with
    | .error _ => .ok ()
    | .ok _ => .ok ()
  { stateUpdates := [some runId, none]
    onSuccessInvoked := invoked
    result := caught }

/-- Claim C9. `handleCancelRun` tracks at most one in-flight cancellation run
id at a time (each tracking state is `none` or a single run id, and the only
id ever tracked is the argument), clears the tracking on every exit path
(the last state update is `none`, whatever the outcomes), never propagates a
failure to its caller, and invokes the optional success callback exactly
when the cancellation call itself succeeded and a callback was supplied. -/
theorem handleCancelRun_spec (runId : String)
    (cancelOutcome : Except String Unit)
    (onSuccess : Option (Except String Unit)) :
    (handleCancelRun runId cancelOutcome onSuccess).stateUpdates =
      [some runId, none] ∧
    (handleCancelRun runId cancelOutcome onSuccess).stateUpdates.getLast? =
      some none ∧
    (handleCancelRun runId cancelOutcome onSuccess).result = .ok () ∧
    ((handleCancelRun runId cancelOutcome onSuccess).onSuccessInvoked = true ↔
      cancelOutcome = .ok () ∧ onSuccess.isSome) := by
  refine ⟨rfl, rfl, ?_, ?_⟩
  · show (match (tryBlock cancelOutcome onSuccess).2 with
          | .error _ => Except.ok ()
          | .ok _ => Except.ok ()) = Except.ok ()
    cases (tryBlock cancelOutcome onSuccess).2 <;> rfl
  · show (tryBlock cancelOutcome onSuccess).1 = true ↔ _
    cases cancelOutcome with
    | error e => simp [tryBlock]
    | ok u =>
      cases onSuccess with
      | none => simp [tryBlock]
      | some cb => simp [tryBlock]

/-- Witness for C9: a succeeding cancellation with a supplied callback
invokes it; the trace still ends cleared and reports success. -/
theorem handleCancelRun_spec_witness :
    (handleCancelRun "run-1" (.ok ()) (some (.ok ()))).stateUpdates =
      [some "run-1", none] ∧
    (handleCancelRun "run-1" (.ok ()) (some (.ok ()))).result = .ok () ∧
    (handleCancelRun "run-1" (.ok ()) (some (.ok ()))).onSuccessInvoked = true :=
  ⟨(handleCancelRun_spec "run-1" (.ok ()) (some (.ok ()))).1,
   (handleCancelRun_spec "run-1" (.ok ()) (some (.ok ()))).2.2.1,
   (handleCancelRun_spec "run-1" (.ok ()) (some (.ok ()))).2.2.2.mpr
     ⟨rfl, rfl⟩⟩

end BenchmarkCancellation
